import Mathlib

/-!
Verification development for the benchmarking harness in
src/quizx/src/simulation_bencher.rs.

The Rust file has three algorithmic parts:
a stratified sampler (get_testset), a benchmark runner (bench_setup) and a
CSV aggregation plus SVG rendering routine (create_svg_plot).  External
collaborators (the random circuit builder, the simplifier, the decomposer,
the file system and the csv reader) are modelled at their interface
boundary: the circuit pipeline is a stream of graphs indexed by the build
invocation count, the decomposer is a pair of functions giving the term
count and the elapsed nanoseconds for a graph, and files are passed as
in-memory values.  Floating point arithmetic is idealised: finite values
are exact rationals or reals, and the IEEE special values (infinities and
NaN, which the renderer genuinely produces on empty input) are modelled by
the four-constructor type F below.
-/

set_option maxHeartbeats 1000000

set_option maxRecDepth 200000

namespace SimBench

/-- Fixed experiment constants, simulation_bencher.rs lines 20 to 23. -/
def SEED : Nat := 42

def MIN_TCOUNT : Nat := 6

def MAX_TCOUNT : Nat := 40

def SAMPLES_PER_TCOUNT : Nat := 4

/-- Abstraction of quizx VecGraph.  The bencher observes a graph only through
its t-count (graph.tcount on line 42); the payload field keeps distinct
samples distinguishable. -/
structure VecGraph where
  tcount : Nat
  payload : Nat
deriving DecidableEq

instance : Inhabited VecGraph := ⟨⟨0, 0⟩⟩

/-- The 34 t-count bins of get_testset, line 26. -/
abbrev Bins := List (List VecGraph)

def initBins : Bins := List.replicate (MAX_TCOUNT - MIN_TCOUNT) []

/-- Loop state of get_testset: the bins, the count_full counter, and the
number of circuit-builder invocations made so far (the builder together
with plug and full_simp is abstracted as a stream of graphs indexed by
this counter). -/
structure GenState where
  bins : Bins
  countFull : Nat
  next : Nat
deriving DecidableEq

/-- One iteration of the inner for loop of get_testset, lines 36 to 52:
build a candidate, and if its t-count lies in the half-open range and the
bin is not yet full, push it, bumping count_full when the bin fills. -/
def innerStep (gen : Nat → VecGraph) (st : GenState) : GenState :=
  let g := gen st.next
  let t := g.tcount
  if MIN_TCOUNT ≤ t ∧ t < MAX_TCOUNT ∧
      (st.bins.getD (t - MIN_TCOUNT) []).length < SAMPLES_PER_TCOUNT then
    let newBin := st.bins.getD (t - MIN_TCOUNT) [] ++ [g]
    { bins := st.bins.set (t - MIN_TCOUNT) newBin,
      countFull :=
        if newBin.length = SAMPLES_PER_TCOUNT then st.countFull + 1 else st.countFull,
      next := st.next + 1 }
  else
    { st with next := st.next + 1 }

/-- One full sweep of the inner for loop, i in MIN_TCOUNT..10*MAX_TCOUNT
(line 36).  The loop index only sets the builder depth, which the stream
abstraction absorbs, so the sweep is the iterated inner step. -/
def genPass (gen : Nat → VecGraph) (st : GenState) : GenState :=
  (List.range (10 * MAX_TCOUNT - MIN_TCOUNT)).foldl (fun s _ => innerStep gen s) st

/-- The outer while loop of get_testset (line 35), with explicit fuel: the
Rust loop has no bound, so the model returns none when the fuel runs out
before every bin is full. -/
def genLoop (gen : Nat → VecGraph) : Nat → GenState → Option Bins
  | 0, _ => none
  | fuel + 1, st =>
    if st.countFull < MAX_TCOUNT - MIN_TCOUNT then genLoop gen fuel (genPass gen st)
    else some st.bins

/-- Model of get_testset, lines 25 to 56.  The gen argument is the
deterministic circuit pipeline: seed to invocation index to simplified
graph; the source fixes the seed to SEED on line 33.  The result is the
flattening of the bins in increasing t-count order (line 55). -/
def get_testset (gen : Nat → Nat → VecGraph) (fuel : Nat) : Option (List VecGraph) :=
  (genLoop (gen SEED) fuel ⟨initBins, 0, 0⟩).map List.flatten

/-- Contiguous chunk k of size SAMPLES_PER_TCOUNT of a flat corpus. -/
def chunk (ts : List VecGraph) (k : Nat) : List VecGraph :=
  (ts.drop (k * SAMPLES_PER_TCOUNT)).take SAMPLES_PER_TCOUNT

/-- Clamp of the requested bound, bench_setup line 77. -/
def bench_bound (max_tcount : Nat) : Nat := min max_tcount MAX_TCOUNT

/-- Data rows of the nterms table written by bench_setup (lines 79 to 98):
for each t_count in MIN_TCOUNT..min(max_tcount, MAX_TCOUNT) and each
offset j below SAMPLES_PER_TCOUNT the sample at flat index
(t_count - MIN_TCOUNT) * SAMPLES_PER_TCOUNT + j is decomposed; nterms g is
the decomposer-reported term count for graph g (external). -/
def benchRowsNterms (max_tcount : Nat) (nterms : VecGraph → Nat)
    (testset : List VecGraph) : List (Nat × Nat) :=
  (List.range' MIN_TCOUNT (bench_bound max_tcount - MIN_TCOUNT)).flatMap fun t =>
    (List.range SAMPLES_PER_TCOUNT).map fun j =>
      (t, nterms (testset.getD ((t - MIN_TCOUNT) * SAMPLES_PER_TCOUNT + j) default))

/-- Data rows of the runtime table written by bench_setup; runtime g is the
measured elapsed nanoseconds for graph g (external wall clock). -/
def benchRowsTimes (max_tcount : Nat) (runtime : VecGraph → Nat)
    (testset : List VecGraph) : List (Nat × Nat) :=
  (List.range' MIN_TCOUNT (bench_bound max_tcount - MIN_TCOUNT)).flatMap fun t =>
    (List.range SAMPLES_PER_TCOUNT).map fun j =>
      (t, runtime (testset.getD ((t - MIN_TCOUNT) * SAMPLES_PER_TCOUNT + j) default))

/-- CSV line for one data row, writeln on lines 96 and 97. -/
def fmtRow (r : Nat × Nat) : String := Nat.repr r.1 ++ "," ++ Nat.repr r.2

/-- Lines of the nterms CSV file produced by bench_setup: the fixed header
written on line 74 followed by the data rows. -/
def benchFileNterms (max_tcount : Nat) (nterms : VecGraph → Nat)
    (testset : List VecGraph) : List String :=
  "t_count,nterms" :: (benchRowsNterms max_tcount nterms testset).map fmtRow

/-- Lines of the runtime CSV file produced by bench_setup: the fixed header
written on line 75 followed by the data rows. -/
def benchFileTimes (max_tcount : Nat) (runtime : VecGraph → Nat)
    (testset : List VecGraph) : List String :=
  "t_count,runtime_nanos" :: (benchRowsTimes max_tcount runtime testset).map fmtRow

/-- Flat corpus indices accessed by bench_setup (line 84), with the loop
bounds of lines 77 to 83. -/
def benchAccessIndices (max_tcount : Nat) : List Nat :=
  (List.range' MIN_TCOUNT (bench_bound max_tcount - MIN_TCOUNT)).flatMap fun t =>
    (List.range SAMPLES_PER_TCOUNT).map fun j =>
      (t - MIN_TCOUNT) * SAMPLES_PER_TCOUNT + j

/-- Error cases of create_svg_plot that the model can reach: a data row whose
fields fail to parse as usize and f64 (lines 124 and 125; the question-mark
operator propagates the parse error out of the function). -/
inductive PlotError where
  | malformedRecord
deriving DecidableEq

/-- Numeric value of a decimal digit character. -/
def digitVal? (c : Char) : Option Nat :=
  if '0' ≤ c ∧ c ≤ '9' then some (c.toNat - 48) else none

def parseNatAux : Nat → List Char → Option Nat
  | acc, [] => some acc
  | acc, c :: cs =>
    match digitVal? c with
    | none => none
    | some d => parseNatAux (acc * 10 + d) cs

/-- Model of the Rust usize parse on record fields (line 124), restricted to
plain digit strings; the bencher only ever writes such fields. -/
def parseNatList : List Char → Option Nat
  | [] => none
  | l => parseNatAux 0 l

/-- Split a character list at the first dot. -/
def splitDot : List Char → List Char × Option (List Char)
  | [] => ([], none)
  | c :: rest =>
    if c = '.' then ([], some rest)
    else
      let p := splitDot rest
      (c :: p.1, p.2)

/-- Unsigned decimal fraction: digits with an optional dot and digits. -/
def parseUFrac (l : List Char) : Option ℚ :=
  match splitDot l with
  | (ip, none) => (parseNatList ip).map fun n => (n : ℚ)
  | (ip, some fp) =>
    match parseNatList ip, parseNatList fp with
    | some i, some f => some ((i : ℚ) + (f : ℚ) / (10 : ℚ) ^ fp.length)
    | _, _ => none

/-- Model of the Rust f64 parse on record fields (line 125), idealised to an
exact rational and restricted to the forms sign digits dot digits that the
bencher writes; exponent, inf and nan spellings are not modelled. -/
def parseFloatQ : List Char → Option ℚ
  | '-' :: rest => (parseUFrac rest).map Neg.neg
  | '+' :: rest => parseUFrac rest
  | l => parseUFrac l

/-- Parse one CSV data record as on lines 124 and 125.  The csv reader is
modelled by handing each data record as its two string fields (the reader
consumes the header row itself, so records hold data rows only). -/
def parseRecord (rec : String × String) : Option (Nat × ℚ) :=
  match parseNatList rec.1.data, parseFloatQ rec.2.data with
  | some t, some v => some (t, v)
  | _, _ => none

/-- The record loop of lines 122 to 128: parse every data row in order,
aborting with an error on the first row that fails to parse, exactly as the
question-mark operator does. -/
def parseTable : List (String × String) → Except PlotError (List (Nat × ℚ))
  | [] => .ok []
  | rec :: rest =>
    match parseRecord rec with
    | none => .error PlotError.malformedRecord
    | some r =>
      match parseTable rest with
      | .error e => .error e
      | .ok rs => .ok (r :: rs)

/-- Append a value to the entry of key k, or append a fresh entry: model of
data_points.entry(t_count).or_default().push(value) on line 127.  The Rust
HashMap is unordered; the model determinises it as an association list in
key insertion order, which is sound because the only consumer sorts by key
(line 141). -/
def insertVal (m : List (Nat × List ℚ)) (k : Nat) (v : ℚ) : List (Nat × List ℚ) :=
  match m with
  | [] => [(k, [v])]
  | (a, vs) :: rest =>
    if a = k then (a, vs ++ [v]) :: rest else (a, vs) :: insertVal rest k v

/-- Grouping of the parsed rows by t_count, lines 120 to 128. -/
def groupRows (rows : List (Nat × ℚ)) : List (Nat × List ℚ) :=
  rows.foldl (fun m r => insertVal m r.1 r.2) []

/-- Values grouped under key k, as a function of the row list. -/
def valsOf (k : Nat) (rows : List (Nat × ℚ)) : List ℚ :=
  (rows.filter fun r => r.1 == k).map fun r => r.2

/-- Idealised f64: an exact finite value, the two infinities, or NaN.  The
arithmetic below follows the IEEE special-value rules that the renderer can
actually hit; finite arithmetic is exact. -/
inductive F where
  | fin (x : ℝ)
  | inf
  | ninf
  | nan

/-- Rust f64::min: if one argument is NaN the other is returned. -/
noncomputable def Fmin : F → F → F
  | .nan, b => b
  | a, .nan => a
  | .inf, b => b
  | .ninf, _ => .ninf
  | .fin a, .inf => .fin a
  | .fin _, .ninf => .ninf
  | .fin a, .fin b => .fin (min a b)

/-- Rust f64::max: if one argument is NaN the other is returned. -/
noncomputable def Fmax : F → F → F
  | .nan, b => b
  | a, .nan => a
  | .ninf, b => b
  | .inf, _ => .inf
  | .fin a, .ninf => .fin a
  | .fin _, .inf => .inf
  | .fin a, .fin b => .fin (max a b)

noncomputable def Fadd : F → F → F
  | .nan, _ => .nan
  | _, .nan => .nan
  | .fin a, .fin b => .fin (a + b)
  | .fin _, .inf => .inf
  | .fin _, .ninf => .ninf
  | .inf, .fin _ => .inf
  | .ninf, .fin _ => .ninf
  | .inf, .inf => .inf
  | .inf, .ninf => .nan
  | .ninf, .inf => .nan
  | .ninf, .ninf => .ninf

noncomputable def Fsub : F → F → F
  | .nan, _ => .nan
  | _, .nan => .nan
  | .fin a, .fin b => .fin (a - b)
  | .fin _, .inf => .ninf
  | .fin _, .ninf => .inf
  | .inf, .fin _ => .inf
  | .ninf, .fin _ => .ninf
  | .inf, .inf => .nan
  | .inf, .ninf => .inf
  | .ninf, .inf => .ninf
  | .ninf, .ninf => .nan

noncomputable def Fmul : F → F → F
  | .nan, _ => .nan
  | _, .nan => .nan
  | .fin a, .fin b => .fin (a * b)
  | .fin a, .inf => if a = 0 then .nan else if 0 < a then .inf else .ninf
  | .fin a, .ninf => if a = 0 then .nan else if 0 < a then .ninf else .inf
  | .inf, .fin a => if a = 0 then .nan else if 0 < a then .inf else .ninf
  | .ninf, .fin a => if a = 0 then .nan else if 0 < a then .ninf else .inf
  | .inf, .inf => .inf
  | .inf, .ninf => .ninf
  | .ninf, .inf => .ninf
  | .ninf, .ninf => .inf

/-- IEEE division on the modelled values; the single model zero stands for
positive zero. -/
noncomputable def Fdiv : F → F → F
  | .nan, _ => .nan
  | _, .nan => .nan
  | .fin a, .fin b =>
    if b = 0 then (if a = 0 then .nan else if 0 < a then .inf else .ninf)
    else .fin (a / b)
  | .fin _, .inf => .fin 0
  | .fin _, .ninf => .fin 0
  | .inf, .fin b => if 0 ≤ b then .inf else .ninf
  | .ninf, .fin b => if 0 ≤ b then .ninf else .inf
  | .inf, .inf => .nan
  | .inf, .ninf => .nan
  | .ninf, .inf => .nan
  | .ninf, .ninf => .nan

/-- IEEE natural logarithm: negative arguments give NaN, zero gives minus
infinity. -/
noncomputable def Fln : F → F
  | .fin a => if 0 < a then .fin (Real.log a) else if a = 0 then .ninf else .nan
  | .inf => .inf
  | .ninf => .nan
  | .nan => .nan

/-- The log transform of a group mean, lines 134 to 138: nterms means are
logged directly, runtime means are rescaled from nanoseconds to
milliseconds first. -/
noncomputable def transform (plotType : String) (mean : F) : F :=
  if plotType = "alpha" then Fln mean else Fln (Fdiv mean (F.fin 1000000))

/-- The per-group transformed points built on lines 130 to 140: one point
per key, second component the transformed arithmetic mean of the grouped
values.  The first components stay Nat in the model; the source casts them
to f64, which is order preserving and injective on these small values. -/
noncomputable def transMeans (plotType : String) (rows : List (Nat × ℚ)) : List (Nat × F) :=
  (groupRows rows).map fun p =>
    (p.1, transform plotType (F.fin ((p.2.sum / (p.2.length : ℚ) : ℚ) : ℝ)))

/-- Sort key comparison of line 141 (partial_cmp on the x values, which are
the casts of the Nat keys). -/
def keyLE {β : Type} (a b : Nat × β) : Bool := decide (a.1 ≤ b.1)

/-- The finished Series for one file: grouped, averaged, transformed and
sorted ascending by t_count (lines 130 to 141).  Rust sort_by is a stable
sort, as is mergeSort. -/
noncomputable def seriesPoints (plotType : String) (rows : List (Nat × ℚ)) : List (Nat × F) :=
  (transMeans plotType rows).mergeSort keyLE

/-- Bool test used to model the character comparisons below. -/
def startsWithList : List Char → List Char → Bool
  | [], _ => true
  | _ :: _, [] => false
  | p :: ps, c :: cs => p == c && startsWithList ps cs

/-- Fuel-driven worker for strReplace; fuel at least the list length makes
the fuel case unreachable. -/
def replaceListAux (pat rep : List Char) : Nat → List Char → List Char
  | 0, l => l
  | _ + 1, [] => []
  | fuel + 1, c :: rest =>
    if pat ≠ [] ∧ startsWithList pat (c :: rest) then
      rep ++ replaceListAux pat rep fuel ((c :: rest).drop pat.length)
    else
      c :: replaceListAux pat rep fuel rest

/-- Model of Rust str::replace: replace every non-overlapping occurrence of
pat, scanning left to right.  The empty pattern case of Rust is not
modelled; the source only replaces nonempty tokens. -/
def strReplace (s pat rep : String) : String :=
  String.mk (replaceListAux pat.data rep.data s.data.length s.data)

/-- Model of file.split on slash followed by next_back, line 111 to 114: the
part of the string after the last slash. -/
def lastComponent (s : String) : String :=
  String.mk ((s.data.reverse.takeWhile fun c => c != '/').reverse)

/-- Series name derivation of lines 111 to 117: strip the benchmark prefix,
the plot-type token and the csv suffix from the file name. -/
def seriesName (plotType fname : String) : String :=
  strReplace (strReplace (strReplace (lastComponent fname) "benchmark_" "") (plotType ++ "_") "") ".csv" ""

/-- Model of data_series.insert(name, data) on line 142: replace the entry
with that name, or append a fresh one. -/
def insertSeries (ds : List (String × List (Nat × F))) (name : String)
    (pts : List (Nat × F)) : List (String × List (Nat × F)) :=
  match ds with
  | [] => [(name, pts)]
  | (n, p) :: rest =>
    if n = name then (n, pts) :: rest else (n, p) :: insertSeries rest name pts

/-- The file loop of lines 110 to 143, carried out over in-memory files
(file name paired with its data records); the accumulator is the
data_series map, determinised in insertion order. -/
noncomputable def loadAllAux (plotType : String)
    (acc : List (String × List (Nat × F))) :
    List (String × List (String × String)) →
      Except PlotError (List (String × List (Nat × F)))
  | [] => .ok acc
  | (fname, rows) :: rest =>
    match parseTable rows with
    | .error e => .error e
    | .ok parsed =>
      loadAllAux plotType
        (insertSeries acc (seriesName plotType fname) (seriesPoints plotType parsed)) rest

noncomputable def loadAll (plotType : String)
    (files : List (String × List (String × String))) :
    Except PlotError (List (String × List (Nat × F))) :=
  loadAllAux plotType [] files

/-- Canvas constants of lines 146 to 150. -/
def widthC : ℝ := 800

def heightC : ℝ := 600

def marginC : ℝ := 50

noncomputable def plotWidthC : ℝ := widthC - 2 * marginC

noncomputable def plotHeightC : ℝ := heightC - 2 * marginC

/-- Fixed x range of lines 153 and 154. -/
def xMinC : ℝ := (MIN_TCOUNT : ℝ)

noncomputable def xMaxC : ℝ := (MAX_TCOUNT : ℝ) - 1

/-- All transformed y values across all series, lines 155 to 162. -/
def allY (ds : List (String × List (Nat × F))) : List F :=
  ds.flatMap fun s => s.2.map fun p => p.2

/-- Fold of f64::min over all y values starting from positive infinity,
lines 155 to 158. -/
noncomputable def yMinOf (ds : List (String × List (Nat × F))) : F :=
  (allY ds).foldl Fmin F.inf

/-- Fold of f64::max over all y values starting from negative infinity,
lines 159 to 162. -/
noncomputable def yMaxOf (ds : List (String × List (Nat × F))) : F :=
  (allY ds).foldl Fmax F.ninf

/-- Affine x mapping of lines 253 and 269. -/
noncomputable def canvasX (x : ℝ) : ℝ :=
  marginC + ((x - xMinC) / (xMaxC - xMinC)) * plotWidthC

/-- Affine inverted y mapping of lines 254 and 270, on modelled f64. -/
noncomputable def canvasY (yMin yMax : F) (y : F) : F :=
  Fadd (F.fin marginC) (Fmul (Fdiv (Fsub yMax y) (Fsub yMax yMin)) (F.fin plotHeightC))

/-- Real-valued y mapping formula on finite data, for comparison with
canvasY. -/
noncomputable def canvasYR (yMin yMax y : ℝ) : ℝ :=
  marginC + ((yMax - y) / (yMax - yMin)) * plotHeightC

/-- Structural model of the SVG elements pushed by create_svg_plot; string
rendering of numbers is presentation only and is not modelled. -/
inductive SvgElem where
  | bgRect (w h : ℝ)
  | titleText (t : String)
  | axisLine (x1 y1 x2 y2 : ℝ)
  | yAxisLabel (t : String)
  | xAxisLabel (t : String)
  | gridLineV (x : ℝ)
  | tickLabelX (x : ℝ) (v : ℝ)
  | gridLineH (y : ℝ)
  | tickLabelY (y : ℝ) (v : F)
  | pathLine (pts : List (ℝ × F)) (color : String)
  | pointMark (cx : ℝ) (cy : F) (color : String)
  | legendLine (y : ℝ) (color : String)
  | legendText (y : ℝ) (name : String)

/-- Color palette of line 244. -/
def colors : List String := ["red", "blue", "green", "magenta", "cyan"]

/-- Document body built by lines 164 to 295, in push order: background,
title, axes, axis labels, six x gridlines with tick labels, six y gridlines
with tick labels, then per series one polyline, its point marks and its two
legend elements at legend_y = 60 + 20 * index. -/
noncomputable def renderDoc (plotType : String)
    (ds : List (String × List (Nat × F))) : List SvgElem :=
  let yMin := yMinOf ds
  let yMax := yMaxOf ds
  [SvgElem.bgRect widthC heightC,
   SvgElem.titleText
     (if plotType = "alpha" then "Average log(n_terms) vs t_count"
      else "Average log(runtime) vs t_count"),
   SvgElem.axisLine marginC marginC marginC (heightC - marginC),
   SvgElem.axisLine marginC (heightC - marginC) (widthC - marginC) (heightC - marginC),
   SvgElem.yAxisLabel
     (if plotType = "alpha" then "log(mean n_terms)" else "log(runtime in ms)"),
   SvgElem.xAxisLabel "t_count"]
  ++ ((List.range 6).flatMap fun i =>
    [SvgElem.gridLineV (marginC + ((i : ℝ) / 5) * plotWidthC),
     SvgElem.tickLabelX (marginC + ((i : ℝ) / 5) * plotWidthC)
       (xMinC + ((i : ℝ) / 5) * (xMaxC - xMinC))])
  ++ ((List.range 6).flatMap fun i =>
    [SvgElem.gridLineH (marginC + ((i : ℝ) / 5) * plotHeightC),
     SvgElem.tickLabelY (marginC + ((i : ℝ) / 5) * plotHeightC)
       (Fsub yMax (Fmul (F.fin ((i : ℝ) / 5)) (Fsub yMax yMin)))])
  ++ (ds.enum.flatMap fun e =>
    (SvgElem.pathLine (e.2.2.map fun p => (canvasX (p.1 : ℝ), canvasY yMin yMax p.2))
        (colors.getD (e.1 % colors.length) "red")
      :: e.2.2.map fun p =>
        SvgElem.pointMark (canvasX (p.1 : ℝ)) (canvasY yMin yMax p.2)
          (colors.getD (e.1 % colors.length) "red"))
    ++ [SvgElem.legendLine (60 + 20 * (e.1 : ℝ)) (colors.getD (e.1 % colors.length) "red"),
        SvgElem.legendText (60 + 20 * (e.1 : ℝ)) e.2.1])

/-- Model of create_svg_plot, lines 102 to 302: load and aggregate every
file, then emit the document.  There is no empty-data guard in the source;
the only error exits are the csv and parse errors of the load phase. -/
noncomputable def create_svg_plot (plotType : String)
    (files : List (String × List (String × String))) :
    Except PlotError (List SvgElem) :=
  match loadAll plotType files with
  | .error e => .error e
  | .ok ds => .ok (renderDoc plotType ds)

/-- Synthetic nterms table rows for the variantA scenario. -/
def recordsA : List (String × String) := [("6", "10"), ("6", "20"), ("7", "30")]

/-- Synthetic nterms table rows for the variantB scenario. -/
def recordsB : List (String × String) := [("6", "5"), ("7", "15")]

/-- The two synthetic in-memory table files of the end-to-end scenario. -/
def filesAB : List (String × List (String × String)) :=
  [("benches/results/benchmark_alpha_variantA.csv", recordsA),
   ("benches/results/benchmark_alpha_variantB.csv", recordsB)]

/-- Extract the color of a polyline element. -/
def pathColor : SvgElem → Option String
  | .pathLine _ c => some c
  | _ => none

/-- Extract the name of a legend text element. -/
def legendNameOf : SvgElem → Option String
  | .legendText _ n => some n
  | _ => none

/-- Extract the value of a y tick label element. -/
def tickYVal : SvgElem → Option F
  | .tickLabelY _ v => some v
  | _ => none

/-- Bin soundness invariant of the sampler loop: 34 bins, bin i holds only
graphs of t-count MIN_TCOUNT + i, and never more than the capacity. -/
def binsOK (bins : Bins) : Prop :=
  bins.length = MAX_TCOUNT - MIN_TCOUNT ∧
  ∀ i, (hi : i < bins.length) →
    bins[i].length ≤ SAMPLES_PER_TCOUNT ∧ ∀ g ∈ bins[i], g.tcount = MIN_TCOUNT + i

/-- Bool test for a full bin. -/
def fullBin (b : List VecGraph) : Bool := b.length == SAMPLES_PER_TCOUNT

/-- Loop invariant of get_testset: sound bins, and count_full counts the
full bins. -/
def stOK (st : GenState) : Prop :=
  binsOK st.bins ∧ st.countFull = st.bins.countP fullBin

/-- Iterated inner step, used to reason about the fold of genPass. -/
def stepsN (gen : Nat → VecGraph) : Nat → GenState → GenState
  | 0, st => st
  | n + 1, st => stepsN gen n (innerStep gen st)

/-- Concrete deterministic stream used to exhibit a terminating sampler
run: the first 136 invocations cycle through the t-counts, filling every
bin; later invocations yield t-count 0, which the range check rejects. -/
def genW (_s k : Nat) : VecGraph :=
  if k < (MAX_TCOUNT - MIN_TCOUNT) * SAMPLES_PER_TCOUNT then
    ⟨MIN_TCOUNT + k % (MAX_TCOUNT - MIN_TCOUNT), k⟩
  else ⟨0, k⟩

/-- Sampler state after the 136 accepting steps of the witness run. -/
def sFull : GenState := stepsN (genW SEED) 136 ⟨initBins, 0, 0⟩

/-- Concrete corpus produced by the witness stream with fuel 2. -/
def testsetW : List VecGraph := sFull.bins.flatten

end SimBench

namespace SimBench

/-- Claim C9: corpus generation is deterministic.  With the external circuit
generator and simplification pass abstracted as a deterministic stream,
two invocations of get_testset over extensionally equal streams return
identical corpora. -/
theorem C9_deterministic (g1 g2 : Nat → Nat → VecGraph) (fuel : Nat)
    (h : ∀ s n, g1 s n = g2 s n) : get_testset g1 fuel = get_testset g2 fuel := by
  have hg : g1 = g2 := funext fun s => funext fun n => h s n
  rw [hg]

theorem C9_deterministic_witness :
    (∀ s n, genW s n = genW s n) ∧ get_testset genW 2 = get_testset genW 2 :=
  ⟨fun _ _ => rfl, C9_deterministic genW genW 2 fun _ _ => rfl⟩

/-- Claim C10: every flat corpus index computed by bench_setup is below the
corpus size (MAX_TCOUNT - MIN_TCOUNT) * SAMPLES_PER_TCOUNT, for every
requested bound, because the bound is clamped to MAX_TCOUNT first. -/
theorem C10_index_in_bounds (max_tcount i : Nat)
    (h : i ∈ benchAccessIndices max_tcount) :
    i < (MAX_TCOUNT - MIN_TCOUNT) * SAMPLES_PER_TCOUNT := by
  simp only [benchAccessIndices, List.mem_flatMap, List.mem_map, List.mem_range'_1,
    List.mem_range] at h
  obtain ⟨t, ht, j, hj, rfl⟩ := h
  simp only [bench_bound, MIN_TCOUNT, MAX_TCOUNT, SAMPLES_PER_TCOUNT] at *
  omega

theorem C10_index_in_bounds_witness :
    135 ∈ benchAccessIndices 50 ∧
      135 < (MAX_TCOUNT - MIN_TCOUNT) * SAMPLES_PER_TCOUNT :=
  ⟨by decide, C10_index_in_bounds 50 135 (by decide)⟩

/-- Claim C4: the log transform satisfies an exact round trip on positive
means: for the alpha kind exp of the transformed value is the mean, for the
runtime kind it is the mean rescaled from nanoseconds to milliseconds. -/
theorem C4_log_round_trip (m : ℝ) (h : 0 < m) :
    transform "alpha" (F.fin m) = F.fin (Real.log m) ∧
    Real.exp (Real.log m) = m ∧
    transform "times" (F.fin m) = F.fin (Real.log (m / 1000000)) ∧
    Real.exp (Real.log (m / 1000000)) = m / 1000000 := by
  have h6 : (0 : ℝ) < 1000000 := by norm_num
  have hm6 : 0 < m / 1000000 := div_pos h h6
  refine ⟨?_, Real.exp_log h, ?_, Real.exp_log hm6⟩
  · rw [transform, if_pos rfl]
    simp [Fln, h]
  · rw [transform, if_neg (by decide)]
    have hdiv : Fdiv (F.fin m) (F.fin 1000000) = F.fin (m / 1000000) := by
      simp only [Fdiv]
      norm_num
    rw [hdiv]
    simp [Fln, hm6]

theorem C4_log_round_trip_witness :
    (0 : ℝ) < 1 ∧
      (transform "alpha" (F.fin 1) = F.fin (Real.log 1) ∧
       Real.exp (Real.log 1) = 1 ∧
       transform "times" (F.fin 1) = F.fin (Real.log (1 / 1000000)) ∧
       Real.exp (Real.log (1 / 1000000)) = 1 / 1000000) :=
  ⟨one_pos, C4_log_round_trip 1 one_pos⟩

/-- Claim C5: the renderer coordinate mapping is affine and monotonic:
canvas x is strictly increasing in x and hits marginC at xMinC and
marginC + plotWidthC at xMaxC; on finite data with y_min below y_max the
f64 canvas y computation reduces to the exact affine formula, which is
strictly decreasing in y. -/
theorem C5_affine_monotonic :
    (∀ x1 x2 : ℝ, x1 < x2 → canvasX x1 < canvasX x2) ∧
    canvasX xMinC = marginC ∧
    canvasX xMaxC = marginC + plotWidthC ∧
    (∀ ymin ymax y : ℝ, ymin < ymax →
      canvasY (F.fin ymin) (F.fin ymax) (F.fin y) = F.fin (canvasYR ymin ymax y)) ∧
    (∀ ymin ymax y1 y2 : ℝ, ymin < ymax → y1 < y2 →
      canvasYR ymin ymax y2 < canvasYR ymin ymax y1) := by
  have hxr : xMaxC - xMinC = 33 := by
    norm_num [xMaxC, xMinC, MAX_TCOUNT, MIN_TCOUNT]
  have hw : plotWidthC = 700 := by norm_num [plotWidthC, widthC, marginC]
  have hh : plotHeightC = 500 := by norm_num [plotHeightC, heightC, marginC]
  refine ⟨?_, ?_, ?_, ?_, ?_⟩
  · intro x1 x2 hx
    unfold canvasX
    rw [hxr, hw]
    have : (x1 - xMinC) / 33 * 700 < (x2 - xMinC) / 33 * 700 := by
      have h1 : x1 - xMinC < x2 - xMinC := by linarith
      have h2 : (x1 - xMinC) / 33 < (x2 - xMinC) / 33 := by
        exact div_lt_div_of_pos_right h1 (by norm_num)
      nlinarith
    linarith
  · unfold canvasX
    simp
  · unfold canvasX
    rw [hxr]
    have hx : xMaxC - xMinC = 33 := hxr
    rw [show xMaxC - xMinC = 33 from hxr] at *
    field_simp
  · intro ymin ymax y hlt
    have hne : ymax - ymin ≠ 0 := by intro hc; linarith [sub_eq_zero.mp hc]
    unfold canvasY canvasYR
    simp only [Fsub, Fdiv, if_neg hne, Fmul, Fadd]
  · intro ymin ymax y1 y2 hlt hy
    unfold canvasYR
    rw [hh]
    have hd : (0 : ℝ) < ymax - ymin := by linarith
    have h1 : ymax - y2 < ymax - y1 := by linarith
    have h2 : (ymax - y2) / (ymax - ymin) < (ymax - y1) / (ymax - ymin) :=
      div_lt_div_of_pos_right h1 hd
    nlinarith

theorem C5_affine_monotonic_witness :
    canvasX 6 < canvasX 7 ∧
    canvasY (F.fin 0) (F.fin 1) (F.fin 0) = F.fin (canvasYR 0 1 0) ∧
    canvasYR 0 1 1 < canvasYR 0 1 0 :=
  ⟨C5_affine_monotonic.1 6 7 (by norm_num),
   C5_affine_monotonic.2.2.2.1 0 1 0 (by norm_num),
   C5_affine_monotonic.2.2.2.2 0 1 0 1 (by norm_num) (by norm_num)⟩

theorem length_flatMap_const {α β : Type} (l : List α) (f : α → List β) (C : Nat)
    (h : ∀ a ∈ l, (f a).length = C) : (l.flatMap f).length = l.length * C := by
  induction l with
  | nil => simp
  | cons a t ih =>
    rw [List.flatMap_cons, List.length_append, h a (List.mem_cons_self a t),
      ih fun x hx => h x (List.mem_cons_of_mem a hx), List.length_cons]
    ring

theorem flatMap_const_getElem? {α β : Type} (l : List α) (f : α → List β) (C k j : Nat)
    (hC : ∀ a ∈ l, (f a).length = C) (hj : j < C) :
    (l.flatMap f)[k * C + j]? = l[k]?.bind fun a => (f a)[j]? := by
  induction l generalizing k with
  | nil => simp
  | cons a t ih =>
    rw [List.flatMap_cons]
    cases k with
    | zero =>
      rw [Nat.zero_mul, Nat.zero_add,
        List.getElem?_append_left (by rw [hC a (List.mem_cons_self a t)]; exact hj)]
      simp
    | succ k =>
      have hlen : (f a).length = C := hC a (List.mem_cons_self a t)
      rw [List.getElem?_append_right (by rw [hlen, Nat.succ_mul]; omega)]
      have hidx : (k + 1) * C + j - (f a).length = k * C + j := by
        rw [hlen, Nat.succ_mul]; omega
      rw [hidx, ih k fun x hx => hC x (List.mem_cons_of_mem a hx)]
      simp

/-- Claim C2: bench_setup writes (min(bound, MAX_TCOUNT) - MIN_TCOUNT) *
SAMPLES_PER_TCOUNT data rows to each of its two tables, each table headed
by its fixed header line, and the row for (t_count, offset j) uses the
corpus element at flat index
(t_count - MIN_TCOUNT) * SAMPLES_PER_TCOUNT + j. -/
theorem C2_bench_rows (max_tcount : Nat) (nterms runtime : VecGraph → Nat)
    (testset : List VecGraph)
    (_h : testset.length = (MAX_TCOUNT - MIN_TCOUNT) * SAMPLES_PER_TCOUNT) :
    (benchRowsNterms max_tcount nterms testset).length
      = (bench_bound max_tcount - MIN_TCOUNT) * SAMPLES_PER_TCOUNT ∧
    (benchRowsTimes max_tcount runtime testset).length
      = (bench_bound max_tcount - MIN_TCOUNT) * SAMPLES_PER_TCOUNT ∧
    benchFileNterms max_tcount nterms testset
      = "t_count,nterms" :: (benchRowsNterms max_tcount nterms testset).map fmtRow ∧
    benchFileTimes max_tcount runtime testset
      = "t_count,runtime_nanos" :: (benchRowsTimes max_tcount runtime testset).map fmtRow ∧
    ∀ t j, MIN_TCOUNT ≤ t → t < bench_bound max_tcount → j < SAMPLES_PER_TCOUNT →
      (benchRowsNterms max_tcount nterms testset)[(t - MIN_TCOUNT) * SAMPLES_PER_TCOUNT + j]?
        = some (t, nterms (testset.getD ((t - MIN_TCOUNT) * SAMPLES_PER_TCOUNT + j) default)) ∧
      (benchRowsTimes max_tcount runtime testset)[(t - MIN_TCOUNT) * SAMPLES_PER_TCOUNT + j]?
        = some (t, runtime (testset.getD ((t - MIN_TCOUNT) * SAMPLES_PER_TCOUNT + j) default)) := by
  have hlenN :
      (benchRowsNterms max_tcount nterms testset).length
        = (bench_bound max_tcount - MIN_TCOUNT) * SAMPLES_PER_TCOUNT := by
    rw [benchRowsNterms, length_flatMap_const _ _ SAMPLES_PER_TCOUNT (by simp),
      List.length_range']
  have hlenT :
      (benchRowsTimes max_tcount runtime testset).length
        = (bench_bound max_tcount - MIN_TCOUNT) * SAMPLES_PER_TCOUNT := by
    rw [benchRowsTimes, length_flatMap_const _ _ SAMPLES_PER_TCOUNT (by simp),
      List.length_range']
  refine ⟨hlenN, hlenT, rfl, rfl, ?_⟩
  intro t j hmin hmax hj
  have hk : t - MIN_TCOUNT < bench_bound max_tcount - MIN_TCOUNT := by omega
  have hrange :
      (List.range' MIN_TCOUNT (bench_bound max_tcount - MIN_TCOUNT))[t - MIN_TCOUNT]?
        = some t := by
    rw [List.getElem?_eq_getElem (by simpa using hk), List.getElem_range']
    congr 1
    omega
  constructor
  · rw [benchRowsNterms, flatMap_const_getElem? _ _ SAMPLES_PER_TCOUNT _ _ (by simp) hj,
      hrange]
    simp [List.getElem?_range, hj]
  · rw [benchRowsTimes, flatMap_const_getElem? _ _ SAMPLES_PER_TCOUNT _ _ (by simp) hj,
      hrange]
    simp [List.getElem?_range, hj]

theorem C2_bench_rows_witness :
    (List.replicate 136 (default : VecGraph)).length
        = (MAX_TCOUNT - MIN_TCOUNT) * SAMPLES_PER_TCOUNT ∧
    ((benchRowsNterms 32 VecGraph.payload (List.replicate 136 default)).length
      = (bench_bound 32 - MIN_TCOUNT) * SAMPLES_PER_TCOUNT ∧
     (benchRowsTimes 32 VecGraph.tcount (List.replicate 136 default)).length
      = (bench_bound 32 - MIN_TCOUNT) * SAMPLES_PER_TCOUNT ∧
     benchFileNterms 32 VecGraph.payload (List.replicate 136 default)
      = "t_count,nterms"
          :: (benchRowsNterms 32 VecGraph.payload (List.replicate 136 default)).map fmtRow ∧
     benchFileTimes 32 VecGraph.tcount (List.replicate 136 default)
      = "t_count,runtime_nanos"
          :: (benchRowsTimes 32 VecGraph.tcount (List.replicate 136 default)).map fmtRow ∧
     ∀ t j, MIN_TCOUNT ≤ t → t < bench_bound 32 → j < SAMPLES_PER_TCOUNT →
      (benchRowsNterms 32 VecGraph.payload
          (List.replicate 136 default))[(t - MIN_TCOUNT) * SAMPLES_PER_TCOUNT + j]?
        = some (t, VecGraph.payload ((List.replicate 136 default).getD
            ((t - MIN_TCOUNT) * SAMPLES_PER_TCOUNT + j) default)) ∧
      (benchRowsTimes 32 VecGraph.tcount
          (List.replicate 136 default))[(t - MIN_TCOUNT) * SAMPLES_PER_TCOUNT + j]?
        = some (t, VecGraph.tcount ((List.replicate 136 default).getD
            ((t - MIN_TCOUNT) * SAMPLES_PER_TCOUNT + j) default))) :=
  ⟨by simp [MAX_TCOUNT, MIN_TCOUNT, SAMPLES_PER_TCOUNT],
   C2_bench_rows 32 VecGraph.payload VecGraph.tcount (List.replicate 136 default)
     (by simp [MAX_TCOUNT, MIN_TCOUNT, SAMPLES_PER_TCOUNT])⟩

theorem countP_set_false {α : Type} (p : α → Bool) (l : List α) (n : Nat) (a : α)
    (hn : n < l.length) (h : p l[n] = false) :
    (l.set n a).countP p = l.countP p + if p a then 1 else 0 := by
  induction l generalizing n with
  | nil => simp at hn
  | cons x t ih =>
    cases n with
    | zero =>
      simp only [List.getElem_cons_zero] at h
      simp [List.countP_cons, h]
    | succ n =>
      have hn2 : n < t.length := by simpa using hn
      simp only [List.getElem_cons_succ] at h
      simp only [List.set_cons_succ, List.countP_cons, ih n hn2 h]
      omega

theorem fullBin_iff (b : List VecGraph) :
    fullBin b = true ↔ b.length = SAMPLES_PER_TCOUNT := by
  simp [fullBin]

theorem innerStep_stOK (gen : Nat → VecGraph) (st : GenState) (h : stOK st) :
    stOK (innerStep gen st) := by
  obtain ⟨⟨hlen, hbins⟩, hcf⟩ := h
  simp only [innerStep]
  generalize gen st.next = g
  by_cases hc : MIN_TCOUNT ≤ g.tcount ∧ g.tcount < MAX_TCOUNT ∧
      (st.bins.getD (g.tcount - MIN_TCOUNT) []).length < SAMPLES_PER_TCOUNT
  · rw [if_pos hc]
    obtain ⟨h1, h2, h3⟩ := hc
    have hb : g.tcount - MIN_TCOUNT < st.bins.length := by rw [hlen]; omega
    have hgetD : st.bins.getD (g.tcount - MIN_TCOUNT) []
        = st.bins[g.tcount - MIN_TCOUNT] := List.getD_eq_getElem _ _ hb
    refine ⟨⟨?_, ?_⟩, ?_⟩
    · show (st.bins.set (g.tcount - MIN_TCOUNT) _).length = MAX_TCOUNT - MIN_TCOUNT
      rw [List.length_set]
      exact hlen
    · show ∀ i, (hi : i < (st.bins.set (g.tcount - MIN_TCOUNT)
        (st.bins.getD (g.tcount - MIN_TCOUNT) [] ++ [g])).length) → _
      intro i hi
      have hi2 : i < st.bins.length := by simpa using hi
      by_cases hib : i = g.tcount - MIN_TCOUNT
      · subst hib
        rw [List.getElem_set_self (by simpa using hb)]
        constructor
        · rw [hgetD] at h3 ⊢
          simp only [List.length_append, List.length_cons, List.length_nil]
          omega
        · intro x hx
          rcases List.mem_append.mp hx with hx | hx
          · rw [hgetD] at hx
            exact (hbins _ hb).2 x hx
          · have hxg : x = g := by simpa using hx
            subst hxg
            exact (Nat.add_sub_cancel' h1).symm
      · rw [List.getElem_set_ne (fun he => hib he.symm) hi]
        exact hbins i hi2
    · show (if (st.bins.getD (g.tcount - MIN_TCOUNT) [] ++ [g]).length = SAMPLES_PER_TCOUNT
          then st.countFull + 1 else st.countFull)
        = List.countP fullBin (st.bins.set (g.tcount - MIN_TCOUNT)
            (st.bins.getD (g.tcount - MIN_TCOUNT) [] ++ [g]))
      have hnotfull : fullBin st.bins[g.tcount - MIN_TCOUNT] = false := by
        rw [← hgetD]
        simp only [fullBin, beq_eq_false_iff_ne, ne_eq]
        omega
      rw [countP_set_false fullBin st.bins _ _ hb hnotfull]
      by_cases hfull : (st.bins.getD (g.tcount - MIN_TCOUNT) [] ++ [g]).length
          = SAMPLES_PER_TCOUNT
      · rw [if_pos hfull, hcf,
          (fullBin_iff (st.bins.getD (g.tcount - MIN_TCOUNT) [] ++ [g])).mpr hfull]
        simp
      · rw [if_neg hfull, hcf]
        have hfb : fullBin (st.bins.getD (g.tcount - MIN_TCOUNT) [] ++ [g]) = false := by
          simp only [fullBin, beq_eq_false_iff_ne, ne_eq]
          exact hfull
        rw [hfb]
        simp
  · rw [if_neg hc]
    exact ⟨⟨hlen, hbins⟩, hcf⟩

theorem foldl_innerStep_stOK (gen : Nat → VecGraph) (l : List Nat) (st : GenState)
    (h : stOK st) : stOK (l.foldl (fun s _ => innerStep gen s) st) := by
  induction l generalizing st with
  | nil => exact h
  | cons a t ih => exact ih _ (innerStep_stOK gen st h)

theorem genPass_stOK (gen : Nat → VecGraph) (st : GenState) (h : stOK st) :
    stOK (genPass gen st) := foldl_innerStep_stOK gen _ st h

theorem genLoop_some (gen : Nat → VecGraph) (fuel : Nat) (st : GenState) (bins : Bins)
    (hst : stOK st) (h : genLoop gen fuel st = some bins) :
    binsOK bins ∧ ∀ i, (hi : i < bins.length) → bins[i].length = SAMPLES_PER_TCOUNT := by
  induction fuel generalizing st with
  | zero => simp [genLoop] at h
  | succ fuel ih =>
    rw [genLoop] at h
    split at h
    · exact ih _ (genPass_stOK gen st hst) h
    next hdone =>
      have hb : bins = st.bins := by
        injection h with h
        exact h.symm
      subst hb
      obtain ⟨⟨hlen, hbins⟩, hcf⟩ := hst
      have hle : st.bins.countP fullBin ≤ st.bins.length := List.countP_le_length _
      have hge : st.bins.length ≤ st.bins.countP fullBin := by
        rw [hlen, ← hcf]
        omega
      have hall := List.countP_eq_length.mp (Nat.le_antisymm hle hge)
      refine ⟨⟨hlen, hbins⟩, fun i hi => ?_⟩
      exact (fullBin_iff _).mp (hall _ (List.getElem_mem hi))

theorem flatten_length_const (bins : Bins)
    (hall : ∀ b ∈ bins, b.length = SAMPLES_PER_TCOUNT) :
    bins.flatten.length = bins.length * SAMPLES_PER_TCOUNT := by
  rw [List.length_flatten]
  have hrep : List.map List.length bins
      = List.replicate bins.length SAMPLES_PER_TCOUNT := by
    rw [List.eq_replicate_iff]
    constructor
    · simp
    · intro x hx
      obtain ⟨b, hb, rfl⟩ := List.mem_map.mp hx
      exact hall b hb
  rw [hrep, List.sum_replicate, smul_eq_mul]

theorem flatten_chunk_const (bins : Bins)
    (hall : ∀ b ∈ bins, b.length = SAMPLES_PER_TCOUNT) :
    ∀ k, (hk : k < bins.length) →
      (bins.flatten.drop (k * SAMPLES_PER_TCOUNT)).take SAMPLES_PER_TCOUNT = bins[k] := by
  induction bins with
  | nil =>
    intro k hk
    simp at hk
  | cons b t ih =>
    intro k hk
    have hbl : b.length = SAMPLES_PER_TCOUNT := hall b (List.mem_cons_self b t)
    cases k with
    | zero =>
      rw [List.flatten_cons, Nat.zero_mul, List.drop_zero, ← hbl, List.take_left]
      simp
    | succ k =>
      have hsucc : (k + 1) * SAMPLES_PER_TCOUNT = b.length + k * SAMPLES_PER_TCOUNT := by
        rw [hbl, Nat.succ_mul]
        omega
      rw [List.flatten_cons, hsucc, List.drop_append,
        ih (fun x hx => hall x (List.mem_cons_of_mem b hx)) k (by simpa using hk)]
      simp

/-- Claim C1: any corpus that get_testset returns has exactly
(MAX_TCOUNT - MIN_TCOUNT) * SAMPLES_PER_TCOUNT graphs, and its contiguous
chunk k of size SAMPLES_PER_TCOUNT has exactly SAMPLES_PER_TCOUNT graphs,
every one of t-count MIN_TCOUNT + k; hence the shared per-chunk t-count is
strictly increasing from chunk to chunk. -/
theorem C1_corpus_shape (gen : Nat → Nat → VecGraph) (fuel : Nat) (ts : List VecGraph)
    (h : get_testset gen fuel = some ts) :
    ts.length = (MAX_TCOUNT - MIN_TCOUNT) * SAMPLES_PER_TCOUNT ∧
    ∀ k, k < MAX_TCOUNT - MIN_TCOUNT →
      (chunk ts k).length = SAMPLES_PER_TCOUNT ∧
      ∀ g ∈ chunk ts k, g.tcount = MIN_TCOUNT + k := by
  have hst0 : stOK ⟨initBins, 0, 0⟩ := by
    refine ⟨⟨by simp [initBins], ?_⟩, ?_⟩
    · intro i hi
      simp only [initBins] at hi ⊢
      rw [List.getElem_replicate]
      simp [SAMPLES_PER_TCOUNT]
    · refine (List.countP_eq_zero.mpr ?_).symm
      intro b hb
      have hbe : b = [] := List.eq_of_mem_replicate (by simpa [initBins] using hb)
      subst hbe
      simp [fullBin, SAMPLES_PER_TCOUNT]
  rw [get_testset] at h
  obtain ⟨bins, hb, hts⟩ := Option.map_eq_some'.mp h
  obtain ⟨⟨hlen, hbins⟩, hfull⟩ := genLoop_some (gen SEED) fuel _ bins hst0 hb
  subst hts
  have hall : ∀ b ∈ bins, b.length = SAMPLES_PER_TCOUNT := by
    intro b hbmem
    obtain ⟨i, hi, rfl⟩ := List.mem_iff_getElem.mp hbmem
    exact hfull i hi
  constructor
  · rw [flatten_length_const bins hall, hlen]
  · intro k hk
    have hk2 : k < bins.length := by rw [hlen]; exact hk
    rw [chunk, flatten_chunk_const bins hall k hk2]
    exact ⟨hfull k hk2, fun g hg => (hbins k hk2).2 g hg⟩

theorem innerStep_reject (gen : Nat → VecGraph) (st : GenState)
    (h : (gen st.next).tcount < MIN_TCOUNT) :
    innerStep gen st = { st with next := st.next + 1 } := by
  simp only [innerStep]
  rw [if_neg fun hc => absurd hc.1 (Nat.not_le.mpr h)]

theorem stepsN_reject (gen : Nat → VecGraph) (n : Nat) (st : GenState)
    (h : ∀ m, st.next ≤ m → (gen m).tcount < MIN_TCOUNT) :
    stepsN gen n st = { st with next := st.next + n } := by
  induction n generalizing st with
  | zero => rfl
  | succ n ih =>
    rw [stepsN, innerStep_reject gen st (h st.next (Nat.le_refl _)),
      ih _ fun m hm => h m (by simp at hm; omega)]
    simp
    omega

theorem foldl_eq_stepsN (gen : Nat → VecGraph) (l : List Nat) (st : GenState) :
    l.foldl (fun s _ => innerStep gen s) st = stepsN gen l.length st := by
  induction l generalizing st with
  | nil => rfl
  | cons a t ih => rw [List.foldl_cons, List.length_cons, stepsN, ih]

theorem stepsN_add (gen : Nat → VecGraph) (a b : Nat) (st : GenState) :
    stepsN gen (a + b) st = stepsN gen b (stepsN gen a st) := by
  induction a generalizing st with
  | zero =>
    rw [Nat.zero_add]
    rfl
  | succ a ih => rw [Nat.succ_add, stepsN, stepsN, ih]

theorem genW_reject (s m : Nat) (h : 136 ≤ m) : (genW s m).tcount < MIN_TCOUNT := by
  rw [genW,
    if_neg (by simp only [MAX_TCOUNT, MIN_TCOUNT, SAMPLES_PER_TCOUNT]; omega)]
  simp [MIN_TCOUNT]

theorem get_testsetW : get_testset genW 2 = some testsetW := by
  have hnext : sFull.next = 136 := by decide
  have hpass : genPass (genW SEED) ⟨initBins, 0, 0⟩ = { sFull with next := 394 } := by
    rw [genPass, foldl_eq_stepsN, List.length_range,
      show 10 * MAX_TCOUNT - MIN_TCOUNT = 136 + 258 by
        simp [MAX_TCOUNT, MIN_TCOUNT],
      stepsN_add,
      show stepsN (genW SEED) 136 ⟨initBins, 0, 0⟩ = sFull from rfl,
      stepsN_reject (genW SEED) 258 sFull fun m hm =>
        genW_reject SEED m (by omega)]
    rw [hnext]
  rw [get_testset,
    show (2 : Nat) = 1 + 1 from rfl, genLoop, if_pos (by decide), hpass, genLoop,
    if_neg (by decide)]
  rfl

theorem C1_corpus_shape_witness :
    get_testset genW 2 = some testsetW ∧
    (testsetW.length = (MAX_TCOUNT - MIN_TCOUNT) * SAMPLES_PER_TCOUNT ∧
     ∀ k, k < MAX_TCOUNT - MIN_TCOUNT →
       (chunk testsetW k).length = SAMPLES_PER_TCOUNT ∧
       ∀ g ∈ chunk testsetW k, g.tcount = MIN_TCOUNT + k) :=
  ⟨get_testsetW, C1_corpus_shape genW 2 testsetW get_testsetW⟩

theorem valsOf_cons (k : Nat) (r : Nat × ℚ) (rest : List (Nat × ℚ)) :
    valsOf k (r :: rest) = if r.1 = k then r.2 :: valsOf k rest else valsOf k rest := by
  by_cases h : r.1 = k <;> simp [valsOf, List.filter_cons, h]

theorem lookup_insertVal (m : List (Nat × List ℚ)) (k0 k : Nat) (v : ℚ) :
    (insertVal m k0 v).lookup k =
      if k = k0 then some ((m.lookup k).getD [] ++ [v]) else m.lookup k := by
  induction m with
  | nil =>
    by_cases h : k = k0
    · subst h
      simp [insertVal, List.lookup]
    · have hbeq : (k == k0) = false := beq_eq_false_iff_ne.mpr h
      simp [insertVal, List.lookup, hbeq, h]
  | cons p rest ih =>
    obtain ⟨a, vs⟩ := p
    by_cases hak : a = k0
    · subst hak
      by_cases hka : k = a
      · subst hka
        simp [insertVal, List.lookup]
      · have hbeq : (k == a) = false := beq_eq_false_iff_ne.mpr hka
        simp [insertVal, List.lookup, hbeq, hka]
    · by_cases hka : k = a
      · have hbeq : (k == a) = true := beq_iff_eq.mpr hka
        have hkk0 : ¬k = k0 := fun hcon => hak (hka.symm.trans hcon)
        simp [insertVal, hak, List.lookup, hbeq, hkk0]
      · have hbeq : (k == a) = false := beq_eq_false_iff_ne.mpr hka
        simp [insertVal, hak, List.lookup, hbeq, ih]

theorem keys_insertVal (m : List (Nat × List ℚ)) (k0 : Nat) (v : ℚ) :
    (insertVal m k0 v).map Prod.fst =
      if k0 ∈ m.map Prod.fst then m.map Prod.fst else m.map Prod.fst ++ [k0] := by
  induction m with
  | nil => simp [insertVal]
  | cons p rest ih =>
    obtain ⟨a, vs⟩ := p
    by_cases hak : a = k0
    · subst hak
      simp [insertVal]
    · have hne : ¬(k0 = a) := fun hcon => hak hcon.symm
      by_cases hmem : k0 ∈ rest.map Prod.fst
      · simp [insertVal, hak, ih, hmem, hne]
      · simp [insertVal, hak, ih, hmem, hne]

theorem keys_nodup_insertVal (m : List (Nat × List ℚ)) (k0 : Nat) (v : ℚ)
    (h : (m.map Prod.fst).Nodup) : ((insertVal m k0 v).map Prod.fst).Nodup := by
  rw [keys_insertVal]
  by_cases hmem : k0 ∈ m.map Prod.fst
  · rwa [if_pos hmem]
  · rw [if_neg hmem, List.nodup_append]
    exact ⟨h, List.nodup_singleton _, by simpa using hmem⟩

theorem keys_mem_insertVal (m : List (Nat × List ℚ)) (k0 x : Nat) (v : ℚ) :
    x ∈ (insertVal m k0 v).map Prod.fst ↔ x ∈ m.map Prod.fst ∨ x = k0 := by
  rw [keys_insertVal]
  by_cases hmem : k0 ∈ m.map Prod.fst
  · rw [if_pos hmem]
    constructor
    · exact fun h => Or.inl h
    · rintro (h | rfl)
      · exact h
      · exact hmem
  · rw [if_neg hmem]
    simp

theorem lookup_foldl_insert (rows : List (Nat × ℚ)) :
    ∀ (m : List (Nat × List ℚ)) (k : Nat),
      (rows.foldl (fun acc r => insertVal acc r.1 r.2) m).lookup k =
        match m.lookup k with
        | some vs => some (vs ++ valsOf k rows)
        | none =>
          if k ∈ rows.map Prod.fst then some (valsOf k rows) else none := by
  induction rows with
  | nil =>
    intro m k
    simp only [List.foldl_nil, valsOf, List.filter_nil, List.map_nil]
    cases m.lookup k <;> simp
  | cons r rest ih =>
    intro m k
    rw [List.foldl_cons, ih (insertVal m r.1 r.2) k, lookup_insertVal, valsOf_cons]
    by_cases hk : k = r.1
    · have hvo : (if r.1 = k then r.2 :: valsOf k rest else valsOf k rest)
          = r.2 :: valsOf k rest := if_pos hk.symm
      rw [if_pos hk, hvo]
      cases hm : m.lookup k with
      | some vs => simp
      | none =>
        have hmem : k ∈ (r :: rest).map Prod.fst := by simp [hk]
        simp [hmem]
        exact Or.inl hk
    · have hvo : (if r.1 = k then r.2 :: valsOf k rest else valsOf k rest)
          = valsOf k rest := if_neg fun hcon => hk hcon.symm
      rw [if_neg hk, hvo]
      cases hm : m.lookup k with
      | some vs => simp
      | none =>
        have hiff : (k ∈ (r :: rest).map Prod.fst) ↔ k ∈ rest.map Prod.fst := by
          simp [hk]
        simp only [hiff]

theorem keys_mem_foldl_insert (rows : List (Nat × ℚ)) :
    ∀ (m : List (Nat × List ℚ)) (x : Nat),
      x ∈ ((rows.foldl (fun acc r => insertVal acc r.1 r.2) m).map Prod.fst) ↔
        x ∈ m.map Prod.fst ∨ x ∈ rows.map Prod.fst := by
  induction rows with
  | nil => intro m x; simp
  | cons r rest ih =>
    intro m x
    rw [List.foldl_cons, ih, keys_mem_insertVal]
    simp [or_assoc, or_comm (a := x = r.1)]

theorem keys_nodup_foldl_insert (rows : List (Nat × ℚ)) :
    ∀ (m : List (Nat × List ℚ)), (m.map Prod.fst).Nodup →
      ((rows.foldl (fun acc r => insertVal acc r.1 r.2) m).map Prod.fst).Nodup := by
  induction rows with
  | nil => intro m h; simpa using h
  | cons r rest ih =>
    intro m h
    rw [List.foldl_cons]
    exact ih _ (keys_nodup_insertVal m r.1 r.2 h)

theorem lookup_groupRows (rows : List (Nat × ℚ)) (k : Nat) :
    (groupRows rows).lookup k =
      if k ∈ rows.map Prod.fst then some (valsOf k rows) else none := by
  rw [groupRows, lookup_foldl_insert rows [] k]
  rfl

theorem keys_groupRows_nodup (rows : List (Nat × ℚ)) :
    ((groupRows rows).map Prod.fst).Nodup :=
  keys_nodup_foldl_insert rows [] (by simp)

theorem lookup_map_snd {β : Type} (f : List ℚ → β) (l : List (Nat × List ℚ)) (k : Nat) :
    ((l.map fun p => (p.1, f p.2)).lookup k) = (l.lookup k).map f := by
  induction l with
  | nil => simp [List.lookup]
  | cons p rest ih =>
    obtain ⟨a, vs⟩ := p
    by_cases hk : k = a
    · have hbeq : (k == a) = true := beq_iff_eq.mpr hk
      simp [List.lookup, hbeq]
    · have hbeq : (k == a) = false := beq_eq_false_iff_ne.mpr hk
      simp [List.lookup, hbeq, ih]

theorem keys_map_snd {β : Type} (f : List ℚ → β) (l : List (Nat × List ℚ)) :
    ((l.map fun p => (p.1, f p.2)).map Prod.fst) = l.map Prod.fst := by
  induction l with
  | nil => rfl
  | cons p rest ih => simp [ih]

theorem mem_iff_lookup_of_nodup {β : Type} (l : List (Nat × β))
    (h : (l.map Prod.fst).Nodup) (k : Nat) (v : β) :
    (k, v) ∈ l ↔ l.lookup k = some v := by
  induction l with
  | nil => simp [List.lookup]
  | cons p rest ih =>
    obtain ⟨a, b⟩ := p
    rw [List.map_cons, List.nodup_cons] at h
    by_cases hk : k = a
    · subst hk
      have hbeq : (k == k) = true := by simp
      have hnot : (k, v) ∉ rest := fun hmem =>
        h.1 (List.mem_map.mpr ⟨(k, v), hmem, rfl⟩)
      simp [List.lookup, hbeq, hnot, eq_comm]
    · have hbeq : (k == a) = false := beq_eq_false_iff_ne.mpr hk
      have hpair : ¬((k, v) = (a, b)) := by simp [hk]
      simp [List.lookup, hbeq, hpair, ih h.2]

theorem keyLE_trans {β : Type} : ∀ a b c : Nat × β,
    keyLE a b = true → keyLE b c = true → keyLE a c = true := by
  intro a b c hab hbc
  simp only [keyLE, decide_eq_true_eq] at *
  omega

theorem keyLE_total {β : Type} : ∀ a b : Nat × β, (keyLE a b || keyLE b a) = true := by
  intro a b
  simp only [keyLE, Bool.or_eq_true, decide_eq_true_eq]
  omega

theorem sorted_keys_lt {β : Type} (l : List (Nat × β))
    (hs : l.Pairwise fun a b => keyLE a b = true)
    (hn : (l.map Prod.fst).Nodup) :
    l.Pairwise fun a b => a.1 < b.1 := by
  have hne : l.Pairwise fun a b => a.1 ≠ b.1 := List.pairwise_map.mp hn
  refine (hs.and hne).imp fun h => ?_
  obtain ⟨hle, hne2⟩ := h
  simp only [keyLE, decide_eq_true_eq] at hle
  omega

theorem aggPerm {β : Type} (f : List ℚ → β)
    (hf : ∀ v₁ v₂ : List ℚ, v₁.Perm v₂ → f v₁ = f v₂)
    (rows₁ rows₂ : List (Nat × ℚ)) (hp : rows₁.Perm rows₂) :
    ((groupRows rows₁).map fun p => (p.1, f p.2)).mergeSort keyLE
      = ((groupRows rows₂).map fun p => (p.1, f p.2)).mergeSort keyLE := by
  have hkeys : ∀ r : List (Nat × ℚ),
      (((groupRows r).map fun p => (p.1, f p.2)).map Prod.fst).Nodup := by
    intro r
    rw [keys_map_snd]
    exact keys_groupRows_nodup r
  have hsub : ∀ r₁ r₂ : List (Nat × ℚ), r₁.Perm r₂ →
      ((groupRows r₁).map fun p => (p.1, f p.2))
        ⊆ ((groupRows r₂).map fun p => (p.1, f p.2)) := by
    intro r₁ r₂ hperm x hx
    obtain ⟨k, v⟩ := x
    have hk1 := (mem_iff_lookup_of_nodup _ (hkeys r₁) k v).mp hx
    rw [lookup_map_snd, lookup_groupRows] at hk1
    by_cases hmem : k ∈ r₁.map Prod.fst
    · rw [if_pos hmem] at hk1
      have hv : f (valsOf k r₁) = v := by simpa using hk1
      have hmem₂ : k ∈ r₂.map Prod.fst := (hperm.map Prod.fst).mem_iff.mp hmem
      have hvals : (valsOf k r₁).Perm (valsOf k r₂) := by
        unfold valsOf
        exact (hperm.filter _).map _
      refine (mem_iff_lookup_of_nodup _ (hkeys r₂) k v).mpr ?_
      rw [lookup_map_snd, lookup_groupRows, if_pos hmem₂]
      have hv₂ : f (valsOf k r₂) = v := (hf _ _ hvals.symm).trans hv
      simp [hv₂]
    · rw [if_neg hmem] at hk1
      simp at hk1
  have hnodup₁ := List.Nodup.of_map Prod.fst (hkeys rows₁)
  have hnodup₂ := List.Nodup.of_map Prod.fst (hkeys rows₂)
  have hLperm :
      ((groupRows rows₁).map fun p => (p.1, f p.2)).Perm
        ((groupRows rows₂).map fun p => (p.1, f p.2)) :=
    (hnodup₁.subperm (hsub rows₁ rows₂ hp)).antisymm
      (hnodup₂.subperm (hsub rows₂ rows₁ hp.symm))
  have hpermSort :
      (((groupRows rows₁).map fun p => (p.1, f p.2)).mergeSort keyLE).Perm
        (((groupRows rows₂).map fun p => (p.1, f p.2)).mergeSort keyLE) :=
    ((List.mergeSort_perm _ keyLE).trans hLperm).trans
      (List.mergeSort_perm _ keyLE).symm
  refine @List.eq_of_perm_of_sorted (Nat × β) (fun a b => a.1 < b.1)
    ⟨fun a b h1 h2 => absurd (h1.trans h2) (lt_irrefl _)⟩ _ _ hpermSort ?_ ?_
  · refine sorted_keys_lt _ (List.sorted_mergeSort keyLE_trans keyLE_total _) ?_
    exact ((List.mergeSort_perm _ keyLE).map Prod.fst).nodup_iff.mpr (hkeys rows₁)
  · refine sorted_keys_lt _ (List.sorted_mergeSort keyLE_trans keyLE_total _) ?_
    exact ((List.mergeSort_perm _ keyLE).map Prod.fst).nodup_iff.mpr (hkeys rows₂)

/-- Claim C7: the aggregation of a table into a Series, grouping by t_count,
averaging each group, transforming and sorting by t_count, is independent of
the order of the data rows: permuted rows give the identical Series. -/
theorem C7_order_independent (plotType : String) (rows₁ rows₂ : List (Nat × ℚ))
    (hp : rows₁.Perm rows₂) :
    seriesPoints plotType rows₁ = seriesPoints plotType rows₂ := by
  rw [seriesPoints, seriesPoints, transMeans, transMeans]
  exact aggPerm
    (fun vs => transform plotType (F.fin ((vs.sum / (vs.length : ℚ) : ℚ) : ℝ)))
    (fun v₁ v₂ hv => by simp only []; rw [hv.sum_eq, hv.length_eq]) rows₁ rows₂ hp

theorem C7_order_independent_witness :
    (([((6 : Nat), (10 : ℚ)), (7, 30)] : List (Nat × ℚ)).Perm [(7, 30), (6, 10)]) ∧
    seriesPoints ("alpha") [(6, 10), (7, 30)] = seriesPoints ("alpha") [(7, 30), (6, 10)] :=
  ⟨List.Perm.swap (7, 30) (6, 10) [],
   C7_order_independent ("alpha") _ _ (List.Perm.swap (7, 30) (6, 10) [])⟩


theorem parseTable_ok_length (rows : List (String × String)) :
    ∀ parsed : List (Nat × ℚ), parseTable rows = .ok parsed →
      parsed.length = rows.length := by
  induction rows with
  | nil =>
    intro parsed h
    simp only [parseTable] at h
    cases h
    rfl
  | cons r rest ih =>
    intro parsed h
    rw [parseTable] at h
    cases hr : parseRecord r with
    | none => rw [hr] at h; cases h
    | some p =>
      rw [hr] at h
      cases ht : parseTable rest with
      | error e => rw [ht] at h; cases h
      | ok rs =>
        rw [ht] at h
        cases h
        simp [ih rs ht]

theorem parseTable_error_of_bad (rows : List (String × String))
    (h : ∃ rec ∈ rows, parseRecord rec = none) :
    ∃ e, parseTable rows = .error e := by
  induction rows with
  | nil => simp at h
  | cons r rest ih =>
    rw [parseTable]
    cases hr : parseRecord r with
    | none => exact ⟨PlotError.malformedRecord, rfl⟩
    | some p =>
      obtain ⟨rec, hmem, hbad⟩ := h
      rcases List.mem_cons.mp hmem with hrec | hrec
      · subst hrec
        rw [hr] at hbad
        cases hbad
      · obtain ⟨e, he⟩ := ih ⟨rec, hrec, hbad⟩
        rw [he]
        exact ⟨e, rfl⟩

theorem loadAllAux_error (plotType : String) (files : List (String × List (String × String))) :
    ∀ acc, (∃ f ∈ files, ∃ rec ∈ f.2, parseRecord rec = none) →
      ∃ e, loadAllAux plotType acc files = .error e := by
  induction files with
  | nil => intro acc h; simp at h
  | cons f rest ih =>
    intro acc h
    obtain ⟨fname, rows⟩ := f
    rw [loadAllAux]
    cases ht : parseTable rows with
    | error e => exact ⟨e, rfl⟩
    | ok parsed =>
      obtain ⟨g, hg, rec, hrec, hbad⟩ := h
      rcases List.mem_cons.mp hg with hgf | hgf
      · subst hgf
        obtain ⟨e, he⟩ := parseTable_error_of_bad rows ⟨rec, hrec, hbad⟩
        rw [he] at ht
        cases ht
      · exact ih _ ⟨g, hgf, rec, hrec, hbad⟩

/-- Claim C8: if any data record of any input table fails to parse as an
integer and float pair, create_svg_plot aborts with an error, and a
successful parse always keeps every row, so no Series is ever built from a
strict subset of the parseable rows of a file. -/
theorem C8_malformed_aborts (plotType : String)
    (files : List (String × List (String × String)))
    (h : ∃ f ∈ files, ∃ rec ∈ f.2, parseRecord rec = none) :
    (∃ e, create_svg_plot plotType files = .error e) ∧
    ∀ (rows : List (String × String)) (parsed : List (Nat × ℚ)),
      parseTable rows = .ok parsed → parsed.length = rows.length := by
  constructor
  · obtain ⟨e, he⟩ := loadAllAux_error plotType files [] h
    refine ⟨e, ?_⟩
    rw [create_svg_plot, loadAll, he]
  · exact fun rows => parseTable_ok_length rows

theorem C8_malformed_aborts_witness :
    (∃ f ∈ [(("f.csv" : String), [(("abc" : String), ("1" : String))])],
      ∃ rec ∈ f.2, parseRecord rec = none) ∧
    ((∃ e, create_svg_plot ("times") [("f.csv", [("abc", "1")])] = .error e) ∧
     ∀ (rows : List (String × String)) (parsed : List (Nat × ℚ)),
       parseTable rows = .ok parsed → parsed.length = rows.length) := by
  have hbad : parseRecord (("abc" : String), ("1" : String)) = none := by decide
  have hex : ∃ f ∈ [(("f.csv" : String), [(("abc" : String), ("1" : String))])],
      ∃ rec ∈ f.2, parseRecord rec = none :=
    ⟨("f.csv", [("abc", "1")]), by simp, ("abc", "1"), by simp, hbad⟩
  exact ⟨hex, C8_malformed_aborts ("times") [("f.csv", [("abc", "1")])] hex⟩


theorem Fsub_ninf_inf : Fsub F.ninf F.inf = F.ninf := rfl

theorem Fsub_ninf_ninf : Fsub F.ninf F.ninf = F.nan := rfl

theorem Fsub_ninf_nan : Fsub F.ninf F.nan = F.nan := rfl

theorem Fmul_fin_ninf_zero (a : ℝ) (h : a = 0) : Fmul (F.fin a) F.ninf = F.nan := by
  simp [Fmul, h]

theorem Fmul_fin_ninf_pos (a : ℝ) (h : 0 < a) : Fmul (F.fin a) F.ninf = F.ninf := by
  simp [Fmul, ne_of_gt h, h]

theorem tick_val_empty (i : Nat) :
    Fsub F.ninf (Fmul (F.fin ((i : ℝ) / 5)) (Fsub F.ninf F.inf)) = F.nan := by
  rw [Fsub_ninf_inf]
  rcases Nat.eq_zero_or_pos i with hi | hi
  · subst hi
    rw [Fmul_fin_ninf_zero _ (by norm_num)]
    rfl
  · have hipos : (0 : ℝ) < (i : ℝ) / 5 :=
      div_pos (by exact_mod_cast hi) (by norm_num)
    rw [Fmul_fin_ninf_pos _ hipos]
    rfl

/-- Claim C3 counterexample: with a single input table holding zero data
rows every series is empty, yet create_svg_plot does not report any error:
it returns success.  This refutes the claim that an all-empty series set
reports a NoData error instead of producing an image. -/
theorem C3_counterexample :
    (create_svg_plot ("alpha")
      [("benches/results/benchmark_alpha_variantX.csv", [])]).isOk = true := rfl

/-- Claim C3 amended: aggregating a zero-row table yields an empty Series,
and create_svg_plot on an all-empty series set returns success, emitting a
document whose six y-axis tick labels are all NaN, the fold over no data
having produced an infinite y range. -/
theorem C3_empty_no_guard :
    seriesPoints ("alpha") ([] : List (Nat × ℚ)) = [] ∧
    loadAll ("alpha") [("benches/results/benchmark_alpha_variantX.csv", [])]
      = .ok [(("variantX" : String), ([] : List (Nat × F)))] ∧
    ∃ doc, create_svg_plot ("alpha")
        [("benches/results/benchmark_alpha_variantX.csv", [])] = .ok doc ∧
      doc.filterMap tickYVal = List.replicate 6 F.nan := by
  have hsp : seriesPoints ("alpha") ([] : List (Nat × ℚ)) = [] := by
    rw [seriesPoints, transMeans, groupRows]
    simp
  have hname : seriesName ("alpha") ("benches/results/benchmark_alpha_variantX.csv")
      = "variantX" := by decide
  have hload : loadAll ("alpha") [("benches/results/benchmark_alpha_variantX.csv", [])]
      = .ok [(("variantX" : String), ([] : List (Nat × F)))] := by
    rw [loadAll, loadAllAux]
    simp only [parseTable, insertSeries, hname, hsp]
    rw [loadAllAux]
  refine ⟨hsp, hload, renderDoc ("alpha") [("variantX", [])], ?_, ?_⟩
  · rw [create_svg_plot, hload]
  · have hymin : yMinOf [(("variantX" : String), ([] : List (Nat × F)))] = F.inf := rfl
    have hymax : yMaxOf [(("variantX" : String), ([] : List (Nat × F)))] = F.ninf := rfl
    have hr6 : List.range 6 = [0, 1, 2, 3, 4, 5] := rfl
    simp only [renderDoc, hymin, hymax, hr6, List.flatMap_cons, List.flatMap_nil,
      List.enum, List.enumFrom, List.map_nil, List.map_cons, List.append_nil,
      List.cons_append, List.nil_append, List.filterMap_append, List.filterMap_cons,
      List.filterMap_nil, tickYVal]
    norm_num [Fsub_ninf_inf, Fmul_fin_ninf_zero, Fmul_fin_ninf_pos,
      Fsub_ninf_ninf, Fsub_ninf_nan]
    rfl


theorem parseA : parseTable recordsA = .ok [((6 : Nat), (10 : ℚ)), (6, 20), (7, 30)] := by
  rfl

theorem parseB : parseTable recordsB = .ok [((6 : Nat), (5 : ℚ)), (7, 15)] := by
  rfl

theorem transMeansA : transMeans ("alpha") [((6 : Nat), (10 : ℚ)), (6, 20), (7, 30)]
    = [(6, F.fin (Real.log 15)), (7, F.fin (Real.log 30))] := by
  have hg : groupRows [((6 : Nat), (10 : ℚ)), (6, 20), (7, 30)]
      = [(6, [10, 20]), (7, [30])] := rfl
  rw [transMeans, hg]
  simp only [List.map_cons, List.map_nil, transform, Fln]
  norm_num

theorem transMeansB : transMeans ("alpha") [((6 : Nat), (5 : ℚ)), (7, 15)]
    = [(6, F.fin (Real.log 5)), (7, F.fin (Real.log 15))] := by
  have hg : groupRows [((6 : Nat), (5 : ℚ)), (7, 15)] = [(6, [5]), (7, [15])] := rfl
  rw [transMeans, hg]
  simp only [List.map_cons, List.map_nil, transform, Fln]
  norm_num

theorem seriesA : seriesPoints ("alpha") [((6 : Nat), (10 : ℚ)), (6, 20), (7, 30)]
    = [(6, F.fin (Real.log 15)), (7, F.fin (Real.log 30))] := by
  rw [seriesPoints, transMeansA]
  exact List.mergeSort_of_sorted (by simp [keyLE, List.pairwise_cons])

theorem seriesB : seriesPoints ("alpha") [((6 : Nat), (5 : ℚ)), (7, 15)]
    = [(6, F.fin (Real.log 5)), (7, F.fin (Real.log 15))] := by
  rw [seriesPoints, transMeansB]
  exact List.mergeSort_of_sorted (by simp [keyLE, List.pairwise_cons])

theorem loadAB : loadAll ("alpha") filesAB
    = .ok [(("variantA" : String), [(6, F.fin (Real.log 15)), (7, F.fin (Real.log 30))]),
           (("variantB" : String), [(6, F.fin (Real.log 5)), (7, F.fin (Real.log 15))])] := by
  have hnameA : seriesName ("alpha") ("benches/results/benchmark_alpha_variantA.csv")
      = "variantA" := by decide
  have hnameB : seriesName ("alpha") ("benches/results/benchmark_alpha_variantB.csv")
      = "variantB" := by decide
  have hne : ("variantA" : String) ≠ "variantB" := by decide
  simp only [loadAll, filesAB, loadAllAux, parseA, parseB, hnameA, hnameB,
    seriesA, seriesB, insertSeries, hne, if_false, reduceIte]

/-- Claim C6: on the two synthetic tables, aggregation produces exactly the
expected log-transformed Series for variantA and variantB, with the names
recovered from the file names, and the rendered document holds two polylines
in the two distinct leading palette colors and exactly two legend entries,
variantA and variantB. -/
theorem C6_end_to_end :
    loadAll ("alpha") filesAB
      = .ok [(("variantA" : String), [(6, F.fin (Real.log 15)), (7, F.fin (Real.log 30))]),
             (("variantB" : String), [(6, F.fin (Real.log 5)), (7, F.fin (Real.log 15))])] ∧
    ("red" : String) ≠ "blue" ∧
    ∃ doc, create_svg_plot ("alpha") filesAB = .ok doc ∧
      doc.filterMap pathColor = ["red", "blue"] ∧
      doc.filterMap legendNameOf = ["variantA", "variantB"] := by
  refine ⟨loadAB, by decide, renderDoc ("alpha")
    [(("variantA" : String), [(6, F.fin (Real.log 15)), (7, F.fin (Real.log 30))]),
     (("variantB" : String), [(6, F.fin (Real.log 5)), (7, F.fin (Real.log 15))])], ?_, ?_, ?_⟩
  · rw [create_svg_plot, loadAB]
  · have hr6 : List.range 6 = [0, 1, 2, 3, 4, 5] := rfl
    simp only [renderDoc, hr6, List.flatMap_cons, List.flatMap_nil,
      List.enum, List.enumFrom, List.map_nil, List.map_cons, List.append_nil,
      List.cons_append, List.nil_append, List.filterMap_append, List.filterMap_cons,
      List.filterMap_nil, pathColor, colors, List.getD, List.getElem?_cons_zero,
      List.getElem?_cons_succ]
    norm_num
  · have hr6 : List.range 6 = [0, 1, 2, 3, 4, 5] := rfl
    simp only [renderDoc, hr6, List.flatMap_cons, List.flatMap_nil,
      List.enum, List.enumFrom, List.map_nil, List.map_cons, List.append_nil,
      List.cons_append, List.nil_append, List.filterMap_append, List.filterMap_cons,
      List.filterMap_nil, legendNameOf]


end SimBench